import Mathlib

/-!
Shallow embedding of the streaming event interpreter and dual-sink logger of
the `claude-mergetool` repository (sources: `src/claude_json.rs`,
`src/logging.rs`), together with theorems settling the specification claims.

Conventions of the embedding:
* Rust `u64` quantities are `Nat`; `f64` values are modelled by `F64`, a
  discrete IEEE-style type carrying finite values as exact fractions (the type
  `Q`, an integer numerator over a positive natural denominator, kept
  unnormalized so every operation is kernel-computable) together with the
  special values `inf`, `negInf` and `nan`.  Fixed-precision decimal
  formatting (`{:.N}` in Rust) is modelled by exact rational rounding to
  nearest, ties to even; the claims below only evaluate it at points where the
  quotient is tie-free, so the binary double-rounding of the real program
  cannot differ there.
* External collaborator crates are uninterpreted parameters: `termimad`
  markdown rendering and `humantime` duration formatting are passed in as
  functions (`ExtFns`).  ANSI styling from `owo_colors` is modelled by
  wrapping the text in the corresponding escape sequence and a reset.
* Rust `std::fmt` writing is modelled by returning the written `String`;
  the shared `has_output: AtomicBool` cell is threaded explicitly as a `Bool`.
-/

namespace ClaudeMergetool

/-- Division of naturals rounded to nearest, ties to even (the rounding used
when formatting an exact decimal quotient to a fixed precision). -/
def divRHE (a b : Nat) : Nat :=
  let q := a / b
  let r := a % b
  if 2 * r < b then q
  else if b < 2 * r then q + 1
  else if q % 2 = 0 then q else q + 1

/-- Left-pad a string with zeros to the given width. -/
def padZeros (width : Nat) (s : String) : String :=
  ⟨List.replicate (width - s.length) '0'⟩ ++ s

/-- Format the quotient `num / den` of naturals with `d` digits after the
decimal point, rounding to nearest.  Embeds Rust `write!("{:.d}", num as f64 / den as f64)`
for nonnegative values. -/
def fmtDivNat (num den d : Nat) : String :=
  let n := divRHE (num * 10 ^ d) den
  toString (n / 10 ^ d) ++ "." ++ padZeros d (toString (n % 10 ^ d))

/-- An exact fraction: integer numerator over a natural denominator.  The
fractions built in this development always have a positive denominator; they
are not normalized, so all arithmetic is plain integer arithmetic and the
kernel can evaluate it.  The denoted value is `num / den`. -/
structure Q where
  num : Int
  den : Nat
deriving DecidableEq

namespace Q

/-- Product of two fractions. -/
def mul (a b : Q) : Q := ⟨a.num * b.num, a.den * b.den⟩

/-- Quotient of two fractions with a nonzero divisor; the divisor sign moves
into the numerator so the denominator stays natural. -/
def div (a b : Q) : Q :=
  if 0 ≤ b.num then ⟨a.num * b.den, a.den * b.num.natAbs⟩
  else ⟨-(a.num * b.den), a.den * b.num.natAbs⟩

/-- Value comparison by cross multiplication (valid for positive
denominators). -/
def blt (a b : Q) : Bool := a.num * b.den < b.num * a.den

/-- The fraction denoting a natural number. -/
def ofNat (n : Nat) : Q := ⟨n, 1⟩

end Q

/-- Format a fraction with `d` digits after the decimal point, rounding to
nearest.  Embeds Rust fixed-precision formatting of a finite double. -/
def fmtQ (q : Q) (d : Nat) : String :=
  if q.num < 0 then "-" ++ fmtDivNat (-q.num).toNat q.den d
  else fmtDivNat q.num.toNat q.den d

/-- Model of an IEEE `f64` at the granularity the claims need: finite values
are carried as exact fractions; the special values are explicit. -/
inductive F64 where
  | finite (q : Q)
  | inf
  | negInf
  | nan
deriving DecidableEq

namespace F64

/-- IEEE division (sign-of-zero refinements ignored; a nonzero finite value
divided by zero yields a signed infinity, zero divided by zero yields
`nan`). -/
def div : F64 → F64 → F64
  | nan, _ => nan
  | _, nan => nan
  | inf, inf => nan
  | inf, negInf => nan
  | negInf, inf => nan
  | negInf, negInf => nan
  | inf, finite b => if b.num < 0 then negInf else inf
  | negInf, finite b => if b.num < 0 then inf else negInf
  | finite _, inf => finite ⟨0, 1⟩
  | finite _, negInf => finite ⟨0, 1⟩
  | finite a, finite b =>
    if b.num = 0 then
      if a.num = 0 then nan else if 0 < a.num then inf else negInf
    else finite (a.div b)

/-- IEEE multiplication (restricted to the shapes the program produces). -/
def mul : F64 → F64 → F64
  | nan, _ => nan
  | _, nan => nan
  | inf, inf => inf
  | inf, negInf => negInf
  | negInf, inf => negInf
  | negInf, negInf => inf
  | inf, finite b => if b.num = 0 then nan else if b.num < 0 then negInf else inf
  | finite b, inf => if b.num = 0 then nan else if b.num < 0 then negInf else inf
  | negInf, finite b => if b.num = 0 then nan else if b.num < 0 then inf else negInf
  | finite b, negInf => if b.num = 0 then nan else if b.num < 0 then inf else negInf
  | finite a, finite b => finite (a.mul b)

/-- IEEE `<` against a finite bound: `nan` compares false, `inf` is not below,
`negInf` is below. -/
def ltFin (x : F64) (bound : Q) : Bool :=
  match x with
  | finite q => q.blt bound
  | inf => false
  | negInf => true
  | nan => false

/-- Fixed-precision formatting of an `f64`; Rust prints `inf`, `-inf` and
`NaN` for the special values at any requested precision. -/
def fmtFixed (x : F64) (d : Nat) : String :=
  match x with
  | finite q => fmtQ q d
  | inf => "inf"
  | negInf => "-inf"
  | nan => "NaN"

end F64

/-- Embeds `impl Display for Dollars` (src/claude_json.rs lines 274-282):
amounts below 1000 print with 4 decimals, otherwise divided by 1000 with
1 decimal and a `k` suffix. -/
def Dollars.display (x : F64) : String :=
  if x.ltFin (Q.ofNat 1000) then "$" ++ x.fmtFixed 4
  else "$" ++ (x.div (F64.finite (Q.ofNat 1000))).fmtFixed 1 ++ "k"

/-- Embeds `impl Display for Tokens` (src/claude_json.rs lines 286-299):
below 1000 the bare integer, below 1000000 thousands with 1 decimal and `k`,
otherwise millions with 3 decimals and `m`. -/
def Tokens.display (t : Nat) : String :=
  if t < 1000 then toString t
  else if t < 1000000 then fmtDivNat t 1000 1 ++ "k"
  else fmtDivNat t 1000000 3 ++ "m"

/-- External collaborator crates, passed in uninterpreted: `term_text` is the
termimad markdown renderer, `humantime` the coarse duration formatter used for
durations of a minute or more (argument in milliseconds). -/
structure ExtFns where
  term_text : String → String
  humantime : Nat → String

/-- Embeds `impl Display for HumanTime` (src/claude_json.rs lines 303-314);
the duration is in milliseconds.  Below one second: whole milliseconds; below
one minute: seconds with two decimals; otherwise the humantime collaborator. -/
def HumanTime.display (ext : ExtFns) (ms : Nat) : String :=
  if ms < 1000 then toString ms ++ "ms"
  else if ms < 60000 then fmtDivNat ms 1000 2 ++ "s"
  else ext.humantime ms

/-- Embeds Rust `str::trim_start_matches('\n')`: remove every leading newline
character (src/claude_json.rs line 112). -/
def stripLeadingNewlines (s : String) : String :=
  ⟨s.data.dropWhile (· == '\n')⟩

/-- Replacement of every non-overlapping occurrence of a nonempty `pat` by
`rep`, scanning left to right.  Structural recursion on a fuel argument so the
kernel can evaluate it; `fuel = l.length` always suffices because every step
consumes at least one character. -/
def listReplaceAux (rep pat : List Char) : Nat → List Char → List Char
  | 0, l => l
  | _ + 1, [] => []
  | fuel + 1, c :: rest =>
    if pat.isPrefixOf (c :: rest) then
      rep ++ listReplaceAux rep pat fuel (rest.drop (pat.length - 1))
    else
      c :: listReplaceAux rep pat fuel rest

/-- Embeds Rust `str::replace` on strings (the empty-pattern case inserts the
replacement at every character boundary, as Rust does). -/
def strReplace (s pat rep : String) : String :=
  if pat.data = [] then
    ⟨rep.data ++ s.data.flatMap (fun c => c :: rep.data)⟩
  else
    ⟨listReplaceAux rep.data pat.data s.data.length s.data⟩

/-- Number of non-overlapping occurrences of a nonempty pattern, scanning left
to right; same fuel discipline as `listReplaceAux`. -/
def countOccsAux (pat : List Char) : Nat → List Char → Nat
  | 0, _ => 0
  | _ + 1, [] => 0
  | fuel + 1, c :: rest =>
    if pat.isPrefixOf (c :: rest) then
      1 + countOccsAux pat fuel (rest.drop (pat.length - 1))
    else
      countOccsAux pat fuel rest

/-- Occurrence count on strings (zero for the empty pattern). -/
def countOccsStr (s pat : String) : Nat :=
  countOccsAux pat.data s.data.length s.data

/-- Embeds the redaction fold of `RawClaudeEvent::fmt` (src/claude_json.rs
lines 62-65): replace each configured temp-directory prefix, in list order,
by the placeholder. -/
def redact (tempDirs : List String) (s : String) : String :=
  tempDirs.foldl (fun acc dir => strReplace acc dir "$TMPDIR") s

/-- Stable insertion into a list sorted by descending string length: the new
element (which originates earlier in the input) goes before the first element
that is not longer than it, so equal-length elements keep their input order. -/
def insertByLenDesc (x : String) : List String → List String
  | [] => [x]
  | y :: ys => if y.length ≤ x.length then x :: y :: ys else y :: insertByLenDesc x ys

/-- Embeds the longest-first sort of `ClaudeEventWriter::new`
(src/claude_json.rs line 33): a stable sort by descending length, matching
Rust `sort_by_key` with a reversed length key. -/
def sortTempDirs : List String → List String
  | [] => []
  | x :: xs => insertByLenDesc x (sortTempDirs xs)

/-- Embeds `owo_colors` dimmed styling: the ANSI dim escape around the text,
then a reset. -/
def dim (s : String) : String := "\x1b[2m" ++ s ++ "\x1b[0m"

/-- Embeds `owo_colors` green plus bold styling: the ANSI escapes around the
text, then a reset. -/
def greenBold (s : String) : String := "\x1b[1m\x1b[32m" ++ s ++ "\x1b[0m"

/-- Embeds `ToolInput` (src/claude_json.rs lines 167-170). -/
structure ToolInput where
  file_path : Option String
deriving DecidableEq

/-- Embeds `ContentBlock` (src/claude_json.rs lines 152-165): internally
tagged by `type`, with a forward-compatible `unknown` fallback. -/
inductive ContentBlock where
  | text (text : String)
  | toolUse (name : String) (input : ToolInput)
  | unknown
deriving DecidableEq

/-- Embeds `AssistantMessage` (src/claude_json.rs lines 146-150). -/
structure AssistantMessage where
  content : List ContentBlock
deriving DecidableEq

/-- Embeds `ClaudeUsage` (src/claude_json.rs lines 236-242). -/
structure ClaudeUsage where
  input_tokens : Nat
  cache_creation_input_tokens : Nat
  cache_read_input_tokens : Nat
  output_tokens : Nat
deriving DecidableEq

/-- Embeds `ClaudeModelUsage` (src/claude_json.rs lines 244-256). -/
structure ClaudeModelUsage where
  input_tokens : Nat
  output_tokens : Nat
  cache_read_input_tokens : Nat
  cache_creation_input_tokens : Nat
  web_search_requests : Nat
  cost_usd : Q
  context_window : Nat
  max_output_tokens : Nat
deriving DecidableEq

/-- Embeds `ClaudeSuccess` (src/claude_json.rs lines 178-192).  Durations are
kept as their source millisecond integers.  The Rust `model_usage` field is a
`std::collections::HashMap`; it is embedded as an association list whose list
order stands for the iteration order of the hash map, which for the real map
is seed-dependent and is not a function of the map contents. -/
structure ClaudeSuccess where
  is_error : Bool
  durationMs : Nat
  apiDurationMs : Nat
  num_turns : Nat
  result : String
  total_cost_usd : Q
  usage : ClaudeUsage
  model_usage : List (String × ClaudeModelUsage)
deriving DecidableEq

/-- Embeds `ClaudeResult` (src/claude_json.rs lines 172-176): a closed family
tagged by `subtype` with `success` as its only variant. -/
inductive ClaudeResult where
  | success (s : ClaudeSuccess)
deriving DecidableEq

/-- Embeds `ClaudeEvent` (src/claude_json.rs lines 76-86): internally tagged
by `type`; note there is no fallback variant at this level. -/
inductive ClaudeEvent where
  | assistant (message : AssistantMessage)
  | result (result : ClaudeResult)
deriving DecidableEq

/-- Embeds the annualized-rate expression of `impl Display for ClaudeSuccess`
(src/claude_json.rs lines 208-218): cost divided by the duration in hours,
times 40 hours per week times 50 weeks per year, in IEEE arithmetic. -/
def annualizedRate (s : ClaudeSuccess) : F64 :=
  F64.mul
    (F64.div (F64.finite s.total_cost_usd) (F64.finite ⟨s.durationMs, 3600000⟩))
    (F64.finite (Q.ofNat (40 * 50)))

/-- Embeds `impl Display for ClaudeModelUsage` (src/claude_json.rs
lines 258-270). -/
def renderModelUsage (u : ClaudeModelUsage) : String :=
  Tokens.display u.input_tokens ++ " input, " ++
  Tokens.display u.output_tokens ++ " output, " ++
  Tokens.display u.cache_read_input_tokens ++ " cache read, " ++
  Tokens.display u.cache_creation_input_tokens ++ " cache write (" ++
  Dollars.display (F64.finite u.cost_usd) ++ ")"

/-- The summary line of `impl Display for ClaudeSuccess` (src/claude_json.rs
lines 200-220) before styling: elapsed time, API time, total cost and the
annualized rate, the last two through the currency formatter. -/
def successHeader (ext : ExtFns) (s : ClaudeSuccess) : String :=
  "Finished in " ++ HumanTime.display ext s.durationMs ++ " (" ++
    HumanTime.display ext s.apiDurationMs ++ " API time). Total cost: " ++
    Dollars.display (F64.finite s.total_cost_usd) ++ " (Salary: " ++
    Dollars.display (annualizedRate s) ++ "/yr)"

/-- One dimmed per-model line of the usage section (src/claude_json.rs
line 228). -/
def modelUsageLine (e : String × ClaudeModelUsage) : String :=
  dim ("\n    " ++ e.1 ++ ": " ++ renderModelUsage e.2)

/-- Embeds `impl Display for ClaudeSuccess` (src/claude_json.rs
lines 198-233): the bold green summary line, then, when the model-usage map is
nonempty, a dimmed header and one dimmed line per model in iteration order. -/
def renderSuccess (ext : ExtFns) (s : ClaudeSuccess) : String :=
  greenBold (successHeader ext s) ++
  (if s.model_usage.isEmpty then ""
   else dim "\nUsage by model:" ++ String.join (s.model_usage.map modelUsageLine))

/-- Embeds the `Text` arm of `ClaudeEventDisplay::fmt` (src/claude_json.rs
lines 108-118): when no output has happened yet, strip leading newlines; a
nonempty remainder is rendered through the markdown collaborator and sets the
flag.  Returns the written text and the new flag. -/
def renderTextBlock (ext : ExtFns) (hasOutput : Bool) (text : String) :
    String × Bool :=
  let t := if hasOutput then text else stripLeadingNewlines text
  if t = "" then ("", hasOutput) else (ext.term_text t, true)

/-- Embeds the `ToolUse` arm of `ClaudeEventDisplay::fmt` (src/claude_json.rs
lines 119-130): a dimmed line with the file path for Read, Write and Edit, a
plain line otherwise; the flag is always set. -/
def renderToolUse (name : String) (input : ToolInput) : String :=
  if name = "Read" ∨ name = "Write" ∨ name = "Edit" then
    dim ("> " ++ name ++ " " ++ input.file_path.getD "?") ++ "\n"
  else
    "> " ++ name ++ "\n"

/-- Embeds one iteration of the content-block loop of
`ClaudeEventDisplay::fmt` (src/claude_json.rs lines 106-133). -/
def renderBlock (ext : ExtFns) (hasOutput : Bool) :
    ContentBlock → String × Bool
  | .text t => renderTextBlock ext hasOutput t
  | .toolUse name input => (renderToolUse name input, true)
  | .unknown => ("", hasOutput)

/-- The content-block loop of `ClaudeEventDisplay::fmt`, threading the
`has_output` flag left to right and concatenating the written text. -/
def renderBlocks (ext : ExtFns) (hasOutput : Bool) :
    List ContentBlock → String × Bool
  | [] => ("", hasOutput)
  | b :: rest =>
    let p := renderBlock ext hasOutput b
    let q := renderBlocks ext p.2 rest
    (p.1 ++ q.1, q.2)

/-- Embeds `ClaudeEventDisplay::fmt` (src/claude_json.rs lines 102-144) on a
parsed event. -/
def renderEvent (ext : ExtFns) (hasOutput : Bool) :
    ClaudeEvent → String × Bool
  | .assistant message => renderBlocks ext hasOutput message.content
  | .result (.success s) => (renderSuccess ext s ++ "\n", true)

/-- JSON values.  The textual tokenizer of `serde_json` is not modelled; a
line of subprocess output is represented by the `Json` value it denotes, and
lines that are not JSON at all correspond to no `Json` value (they take the
same skip path as any value that fails deserialization below).  Numbers are
carried as exact rationals. -/
inductive Json where
  | null
  | bool (b : Bool)
  | num (q : Q)
  | str (s : String)
  | arr (elems : List Json)
  | obj (fields : List (String × Json))

/-- Field lookup in a JSON object (first occurrence). -/
def jGet (fields : List (String × Json)) (k : String) : Option Json :=
  fields.lookup k

/-- A JSON value as a Rust `String`. -/
def Json.asStr? : Json → Option String
  | .str s => some s
  | _ => none

/-- A JSON value as a Rust `bool`. -/
def Json.asBool? : Json → Option Bool
  | .bool b => some b
  | _ => none

/-- A JSON value as a Rust `u64`: a non-negative integer number. -/
def Json.asNat? : Json → Option Nat
  | .num q => if q.den = 1 ∧ 0 ≤ q.num then some q.num.toNat else none
  | _ => none

/-- A JSON value as a Rust `f64` (modelled exactly). -/
def Json.asRat? : Json → Option Q
  | .num q => some q
  | _ => none

/-- Embeds serde deserialization of `ToolInput`: an object whose optional
`file_path` field is a string or null; other fields are ignored. -/
def ToolInput.deserialize : Json → Option ToolInput
  | .obj fields =>
    match jGet fields "file_path" with
    | none => some ⟨none⟩
    | some .null => some ⟨none⟩
    | some (.str s) => some ⟨some s⟩
    | some _ => none
  | _ => none

/-- Embeds serde deserialization of `ContentBlock`: internally tagged by
`type`; the tags `text` and `tool_use` are modelled, any other string tag is
the `#[serde(other)]` fallback `Unknown`, and a missing or non-string tag is
an error.  The `input` field defaults when absent. -/
def ContentBlock.deserialize : Json → Option ContentBlock
  | .obj fields =>
    match jGet fields "type" with
    | some (.str "text") =>
      (jGet fields "text" >>= Json.asStr?).map ContentBlock.text
    | some (.str "tool_use") => do
      let name ← jGet fields "name" >>= Json.asStr?
      let input ←
        match jGet fields "input" with
        | none => some (⟨none⟩ : ToolInput)
        | some ij => ToolInput.deserialize ij
      pure (ContentBlock.toolUse name input)
    | some (.str _) => some ContentBlock.unknown
    | _ => none
  | _ => none

/-- Embeds serde deserialization of `AssistantMessage`: the `content` field
defaults to the empty list when absent; every element must deserialize. -/
def AssistantMessage.deserialize : Json → Option AssistantMessage
  | .obj fields =>
    match jGet fields "content" with
    | none => some ⟨[]⟩
    | some (.arr xs) => (xs.mapM ContentBlock.deserialize).map AssistantMessage.mk
    | some _ => none
  | _ => none

/-- Embeds serde deserialization of `ClaudeUsage`: all four token fields are
required `u64` values. -/
def ClaudeUsage.deserialize : Json → Option ClaudeUsage
  | .obj fields => do
    let it ← jGet fields "input_tokens" >>= Json.asNat?
    let cc ← jGet fields "cache_creation_input_tokens" >>= Json.asNat?
    let cr ← jGet fields "cache_read_input_tokens" >>= Json.asNat?
    let ot ← jGet fields "output_tokens" >>= Json.asNat?
    pure ⟨it, cc, cr, ot⟩
  | _ => none

/-- Embeds serde deserialization of `ClaudeModelUsage`: camelCase field names
with the `costUSD` rename. -/
def ClaudeModelUsage.deserialize : Json → Option ClaudeModelUsage
  | .obj fields => do
    let it ← jGet fields "inputTokens" >>= Json.asNat?
    let ot ← jGet fields "outputTokens" >>= Json.asNat?
    let cr ← jGet fields "cacheReadInputTokens" >>= Json.asNat?
    let cc ← jGet fields "cacheCreationInputTokens" >>= Json.asNat?
    let ws ← jGet fields "webSearchRequests" >>= Json.asNat?
    let cost ← jGet fields "costUSD" >>= Json.asRat?
    let cw ← jGet fields "contextWindow" >>= Json.asNat?
    let mo ← jGet fields "maxOutputTokens" >>= Json.asNat?
    pure ⟨it, ot, cr, cc, ws, cost, cw, mo⟩
  | _ => none

/-- Embeds serde deserialization of the `ClaudeSuccess` payload from the
fields of the (flattened) result object.  The association list produced for
`model_usage` lists the JSON entries in order; the real `HashMap` stores them
with a seed-dependent iteration order. -/
def ClaudeSuccess.deserialize (fields : List (String × Json)) :
    Option ClaudeSuccess := do
  let ie ← jGet fields "is_error" >>= Json.asBool?
  let dur ← jGet fields "duration_ms" >>= Json.asNat?
  let apiDur ← jGet fields "duration_api_ms" >>= Json.asNat?
  let turns ← jGet fields "num_turns" >>= Json.asNat?
  let res ← jGet fields "result" >>= Json.asStr?
  let cost ← jGet fields "total_cost_usd" >>= Json.asRat?
  let usage ← jGet fields "usage" >>= ClaudeUsage.deserialize
  let mu ←
    match jGet fields "modelUsage" with
    | some (.obj entries) =>
      entries.mapM (fun e => (ClaudeModelUsage.deserialize e.2).map (fun u => (e.1, u)))
    | _ => none
  pure ⟨ie, dur, apiDur, turns, res, cost, usage, mu⟩

/-- Embeds serde deserialization of `ClaudeResult` from the flattened result
fields: internally tagged by `subtype`; `success` is the only variant, so any
other (or missing, or non-string) subtype is a deserialization error. -/
def ClaudeResult.deserialize (fields : List (String × Json)) :
    Option ClaudeResult :=
  match jGet fields "subtype" with
  | some (.str "success") => (ClaudeSuccess.deserialize fields).map ClaudeResult.success
  | _ => none

/-- Embeds serde deserialization of `ClaudeEvent`: internally tagged by
`type`, with `assistant` and `result` the only variants and no fallback, so
any other tag fails to deserialize. -/
def ClaudeEvent.deserialize : Json → Option ClaudeEvent
  | .obj fields =>
    match jGet fields "type" with
    | some (.str "assistant") =>
      (jGet fields "message" >>= AssistantMessage.deserialize).map ClaudeEvent.assistant
    | some (.str "result") =>
      (ClaudeResult.deserialize fields).map ClaudeEvent.result
    | _ => none
  | _ => none

/-- Embeds `RawClaudeEvent::fmt` (src/claude_json.rs lines 57-74): a line that
deserializes is rendered and then redacted through the temp-directory table; a
line that fails deserialization writes nothing, leaves the flag alone, and
surfaces no error (the `Err` arm returns `Ok(())` after a debug trace). -/
def rawEventRender (ext : ExtFns) (tempDirs : List String) (hasOutput : Bool)
    (j : Json) : String × Bool :=
  match ClaudeEvent.deserialize j with
  | some ev =>
    let p := renderEvent ext hasOutput ev
    (redact tempDirs p.1, p.2)
  | none => ("", hasOutput)

/-- A whole run of the writer over a sequence of parsed lines, threading the
`has_output` flag: returns the per-line rendered strings and the final flag. -/
def renderRun (ext : ExtFns) (tempDirs : List String) (hasOutput : Bool) :
    List Json → List String × Bool
  | [] => ([], hasOutput)
  | j :: rest =>
    let p := rawEventRender ext tempDirs hasOutput j
    let q := renderRun ext tempDirs p.2 rest
    (p.1 :: q.1, q.2)

/-- Outcome of one I/O attempt, supplied by the environment: the shallow
embedding of the file system makes the success or failure of each `write` or
`open` call an explicit input. -/
inductive IOOutcome where
  | ok
  | err
deriving DecidableEq

/-- Embeds `MergeLogger` (src/logging.rs lines 34-37): the live per-run event
file handle, when any, and the summary path, when the log directory resolved.
The handle and path carry no further information the claims need, so both are
`Option Unit`. -/
structure MergeLogger where
  event_file : Option Unit
  summary_path : Option Unit
deriving DecidableEq

/-- Embeds `MergeLogger::new` (src/logging.rs lines 40-67): a failed log
directory leaves both sinks disabled; otherwise the summary path is set and
the event file is live exactly when the fresh file creation succeeded.
Construction itself never fails. -/
def MergeLogger.new (dirOk : Bool) (createOk : Bool) : MergeLogger :=
  if dirOk then
    { event_file := if createOk then some () else none, summary_path := some () }
  else
    { event_file := none, summary_path := none }

/-- Embeds `MergeLogger::log_event` (src/logging.rs lines 69-76).  The second
component is the content appended to the event file, when the write happened;
the Rust function returns unit, so the codomain carries no error channel and a
write failure only clears the handle. -/
def MergeLogger.log_event (lg : MergeLogger) (line : String) (w : IOOutcome) :
    MergeLogger × Option String :=
  match lg.event_file with
  | some h =>
    match w with
    | .ok => ({ lg with event_file := some h }, some (line ++ "\n"))
    | .err => ({ lg with event_file := none }, none)
  | none => (lg, none)

/-- Embeds `MergeLogger::log_summary` (src/logging.rs lines 78-91): each call
opens the summary path afresh (outcome `o`), writes one line (outcome `w`),
and closes; no component of the logger state is modified and no error leaves
the function. -/
def MergeLogger.log_summary (lg : MergeLogger) (line : String)
    (o w : IOOutcome) : MergeLogger × Option String :=
  match lg.summary_path with
  | some _ =>
    match o with
    | .ok =>
      match w with
      | .ok => (lg, some (line ++ "\n"))
      | .err => (lg, none)
    | .err => (lg, none)
  | none => (lg, none)

/-- A run of `log_event` calls: threads the logger through a list of lines
with their write outcomes and collects the contents actually appended. -/
def runEvents (lg : MergeLogger) : List (String × IOOutcome) →
    MergeLogger × List String
  | [] => (lg, [])
  | (line, w) :: rest =>
    let p := lg.log_event line w
    let q := runEvents p.1 rest
    (q.1, p.2.toList ++ q.2)

/-! Theorems settling the specification claims. -/

/-- Concrete instantiation of the collaborator functions, used when a claim is
evaluated at a specific input: markdown rendering as the identity and a fixed
humantime rendering. -/
def extId : ExtFns := ⟨fun s => s, fun _ => "1m 40s"⟩

/-- C7: token counts below 1000 render as the bare integer; from 1000 up to
1000000 (exclusive) as thousands with one decimal place and a `k` suffix; from
1000000 up as millions with three decimal places and an `m` suffix; the
boundary values 999, 1000, 999999 and 1000000 fall on exactly these
thresholds. -/
theorem tokens_display_thresholds (t : Nat) :
    (t < 1000 → Tokens.display t = toString t) ∧
    (1000 ≤ t → t < 1000000 → Tokens.display t = fmtDivNat t 1000 1 ++ "k") ∧
    (1000000 ≤ t → Tokens.display t = fmtDivNat t 1000000 3 ++ "m") ∧
    Tokens.display 999 = "999" ∧
    Tokens.display 1000 = "1.0k" ∧
    Tokens.display 999999 = "1000.0k" ∧
    Tokens.display 1000000 = "1.000m" := by
  refine ⟨?_, ?_, ?_, by decide, by decide, by decide, by decide⟩
  · intro h
    simp [Tokens.display, h]
  · intro h1 h2
    simp [Tokens.display, h2]
    omega
  · intro h
    have h1 : ¬ t < 1000 := by omega
    have h2 : ¬ t < 1000000 := by omega
    simp [Tokens.display, h1, h2]

/-- Witness: the three threshold branches of `tokens_display_thresholds`
evaluated at 500, 5000 and 2000000. -/
theorem tokens_display_thresholds_witness :
    Tokens.display 500 = toString 500 ∧
    Tokens.display 5000 = fmtDivNat 5000 1000 1 ++ "k" ∧
    Tokens.display 2000000 = fmtDivNat 2000000 1000000 3 ++ "m" :=
  ⟨(tokens_display_thresholds 500).1 (by decide),
   (tokens_display_thresholds 5000).2.1 (by decide) (by decide),
   (tokens_display_thresholds 2000000).2.2.1 (by decide)⟩

/-- Fuel irrelevance for the replacement scan: any fuel at least the length
of the scanned list gives the same result, since each step consumes at least
one character. -/
theorem listReplaceAux_congr (rep pat : List Char) :
    ∀ (f1 f2 : Nat) (l : List Char), l.length ≤ f1 → l.length ≤ f2 →
      listReplaceAux rep pat f1 l = listReplaceAux rep pat f2 l := by
  intro f1
  induction f1 with
  | zero =>
    intro f2 l h1 _
    have hl : l = [] := List.length_eq_zero.mp (Nat.le_zero.mp h1)
    subst hl
    cases f2 <;> rfl
  | succ f ih =>
    intro f2 l h1 h2
    cases l with
    | nil => cases f2 <;> rfl
    | cons c rest =>
      cases f2 with
      | zero => simp at h2
      | succ f2h =>
        simp only [List.length_cons] at h1 h2
        by_cases hm : pat.isPrefixOf (c :: rest) = true
        · simp only [listReplaceAux, hm, if_true]
          congr 1
          apply ih
          · have := List.length_drop (pat.length - 1) rest
            omega
          · have := List.length_drop (pat.length - 1) rest
            omega
        · simp only [listReplaceAux, hm, if_false, Bool.false_eq_true]
          congr 1
          apply ih <;> omega

/-- A scan over a list that begins with the (nonempty) pattern consumes that
leading occurrence atomically: the whole pattern is replaced and the scan
resumes after it. -/
theorem listReplaceAux_consume (rep pat t : List Char) (hp : pat ≠ []) :
    listReplaceAux rep pat (pat ++ t).length (pat ++ t)
      = rep ++ listReplaceAux rep pat t.length t := by
  cases pat with
  | nil => exact absurd rfl hp
  | cons p0 ptl =>
    have hpre : (p0 :: ptl).isPrefixOf (p0 :: (ptl ++ t)) = true := by
      rw [List.isPrefixOf_iff_prefix]
      rw [show p0 :: (ptl ++ t) = (p0 :: ptl) ++ t from rfl]
      exact List.prefix_append _ _
    rw [show (p0 :: ptl) ++ t = p0 :: (ptl ++ t) from rfl]
    rw [show (p0 :: (ptl ++ t)).length = (ptl ++ t).length + 1 from rfl]
    simp only [listReplaceAux, hpre, if_true]
    congr 1
    rw [show (p0 :: ptl).length - 1 = ptl.length from rfl, List.drop_left]
    apply listReplaceAux_congr
    · simp only [List.length_append]
      omega
    · exact Nat.le_refl _

/-- A scan walks transparently over a leading segment that contains no
occurrence of the first pattern character. -/
theorem listReplaceAux_skip (rep : List Char) (p0 : Char) (ptl : List Char) :
    ∀ (pre s : List Char), p0 ∉ pre →
      listReplaceAux rep (p0 :: ptl) (pre ++ s).length (pre ++ s)
        = pre ++ listReplaceAux rep (p0 :: ptl) s.length s := by
  intro pre
  induction pre with
  | nil =>
    intro s _
    simp
  | cons c preh ih =>
    intro s hmem
    have hc : (p0 == c) = false := by
      simp only [beq_eq_false_iff_ne, ne_eq]
      intro h
      exact hmem (by rw [h]; exact List.mem_cons_self c preh)
    have hpre : (p0 :: ptl).isPrefixOf (c :: (preh ++ s)) = false := by
      simp [List.isPrefixOf, hc]
    rw [show (c :: preh) ++ s = c :: (preh ++ s) from rfl]
    rw [show (c :: (preh ++ s)).length = (preh ++ s).length + 1 from rfl]
    simp only [listReplaceAux, hpre, if_false, Bool.false_eq_true]
    rw [List.cons_append]
    congr 1
    exact ih s (fun h => hmem (List.mem_cons_of_mem _ h))

/-- A nonempty string has a nonempty character list. -/
theorem data_ne_nil_of_ne_empty {s : String} (h : s ≠ "") : s.data ≠ [] := by
  intro hd
  apply h
  cases s with
  | mk l =>
    simp only at hd
    rw [hd]

/-- String append is character-list append (both strings viewed through
`data`). -/
theorem append_mk_data (a : String) (l : List Char) :
    a ++ String.mk l = String.mk (a.data ++ l) := by
  cases a with
  | mk al => rfl

/-- A text beginning with the (nonempty) replaced prefix has that occurrence
consumed atomically by `strReplace`: the output is the replacement followed by
the replacement scan of the rest. -/
theorem strReplace_consume (pat t rep : String) (hp : pat ≠ "") :
    strReplace (pat ++ t) pat rep = rep ++ strReplace t pat rep := by
  have hd : pat.data ≠ [] := data_ne_nil_of_ne_empty hp
  rw [strReplace, strReplace, if_neg hd, if_neg hd, append_mk_data]
  apply congrArg String.mk
  show listReplaceAux rep.data pat.data (pat.data ++ t.data).length (pat.data ++ t.data)
      = rep.data ++ listReplaceAux rep.data pat.data t.data.length t.data
  exact listReplaceAux_consume _ _ _ hd

/-- The replacement scan walks transparently over a leading string none of
whose characters can start a match of the (nonempty) pattern. -/
theorem strReplace_skip (pre s p rep : String) (hp : p ≠ "")
    (hhead : ∀ c, p.data.head? = some c → c ∉ pre.data) :
    strReplace (pre ++ s) p rep = pre ++ strReplace s p rep := by
  have hd : p.data ≠ [] := data_ne_nil_of_ne_empty hp
  obtain ⟨p0, ptl, hpd⟩ : ∃ p0 ptl, p.data = p0 :: ptl := by
    cases hpdata : p.data with
    | nil => exact absurd hpdata hd
    | cons a as => exact ⟨a, as, rfl⟩
  have hmem : p0 ∉ pre.data := hhead p0 (by rw [hpd]; rfl)
  rw [strReplace, strReplace, if_neg hd, if_neg hd, append_mk_data]
  apply congrArg String.mk
  show listReplaceAux rep.data p.data (pre.data ++ s.data).length (pre.data ++ s.data)
      = pre.data ++ listReplaceAux rep.data p.data s.data.length s.data
  rw [hpd]
  exact listReplaceAux_skip _ _ _ _ _ hmem

/-- C4 counterexample: the claim quantifies over every text and every
configured prefix table, but literal replacement can re-create a configured
prefix across a placeholder junction.  With both `R` and `Ra` configured (the
shorter a prefix of the longer), redacting the text `Raa` first replaces the
leading `Ra`, then the shorter-prefix pass replaces the `R` inside the
inserted placeholder; the final output still contains one occurrence of the
longer configured prefix `Ra`, so redaction left a partially reduced longer
prefix rather than replacing every occurrence with the placeholder. -/
theorem redact_junction_counterexample :
    sortTempDirs ["R", "Ra"] = ["Ra", "R"] ∧
    redact (sortTempDirs ["R", "Ra"]) "Raa" = "$TMPDI$TMPDIRa" ∧
    countOccsStr (redact (sortTempDirs ["R", "Ra"]) "Raa") "Ra" = 1 ∧
    countOccsStr (redact (sortTempDirs ["R", "Ra"]) "Raa") "R" = 1 := by
  exact ⟨by decide, by decide, by decide, by decide⟩

/-- C4 (amended): the table is sorted longest first (stable descending
length, proved for every two-element table); for every text and every
(nonempty) prefix, a replace pass consumes a leading occurrence atomically;
and for every nested pair of prefixes `p` and `p ++ r` and every trailing
text, provided the shorter prefix does not begin with a placeholder character
(true of the real slash-initial path tables against `$TMPDIR`), redaction of
`(p ++ r) ++ t` through the longest-first table reduces the leading longer
prefix to the placeholder exactly once with no shorter-prefix remnant; the
claimed `/tmp`, `/tmp/sub` instance and its occurrence counts follow. -/
theorem redact_longest_first :
    (∀ a b : String, a.length < b.length → sortTempDirs [a, b] = [b, a]) ∧
    (∀ pat t rep : String, pat ≠ "" →
      strReplace (pat ++ t) pat rep = rep ++ strReplace t pat rep) ∧
    (∀ p s : String, p ≠ "" →
      (∀ c, p.data.head? = some c → c ∉ ("$TMPDIR" : String).data) →
      strReplace ("$TMPDIR" ++ s) p "$TMPDIR"
        = "$TMPDIR" ++ strReplace s p "$TMPDIR") ∧
    (∀ p r t : String, p ≠ "" → r ≠ "" →
      (∀ c, p.data.head? = some c → c ∉ ("$TMPDIR" : String).data) →
      redact (sortTempDirs [p, p ++ r]) ((p ++ r) ++ t)
        = "$TMPDIR" ++ strReplace (strReplace t (p ++ r) "$TMPDIR") p "$TMPDIR") ∧
    sortTempDirs ["/tmp", "/tmp/sub"] = ["/tmp/sub", "/tmp"] ∧
    redact (sortTempDirs ["/tmp", "/tmp/sub"]) "/tmp/sub/file" = "$TMPDIR/file" ∧
    countOccsStr "$TMPDIR/file" "$TMPDIR" = 1 ∧
    countOccsStr "$TMPDIR/file" "/tmp" = 0 ∧
    redact (sortTempDirs ["/tmp", "/tmp/sub"]) "/tmp/sub/a /tmp/sub/b /tmp/c"
      = "$TMPDIR/a $TMPDIR/b $TMPDIR/c" := by
  have hsort : ∀ a b : String, a.length < b.length → sortTempDirs [a, b] = [b, a] := by
    intro a b h
    have hb : ¬ b.length ≤ a.length := by omega
    simp [sortTempDirs, insertByLenDesc, hb]
  refine ⟨hsort, fun pat t rep hp => strReplace_consume pat t rep hp,
    fun p s hp hh => strReplace_skip "$TMPDIR" s p "$TMPDIR" hp hh,
    ?_, by decide, by decide, by decide, by decide, by decide⟩
  intro p r t hp hr hhead
  have hq : p ++ r ≠ "" := by
    intro h
    apply data_ne_nil_of_ne_empty hp
    have := congrArg String.data h
    rw [String.data_append] at this
    exact List.append_eq_nil.mp this |>.1
  have hlen : p.length < (p ++ r).length := by
    have hrd : r.data ≠ [] := data_ne_nil_of_ne_empty hr
    have : 0 < r.length := by
      rw [String.length]
      cases hrdata : r.data with
      | nil => exact absurd hrdata hrd
      | cons a as => simp
    rw [String.length_append]
    omega
  rw [hsort p (p ++ r) hlen]
  rw [show redact [p ++ r, p] ((p ++ r) ++ t)
      = strReplace (strReplace ((p ++ r) ++ t) (p ++ r) "$TMPDIR") p "$TMPDIR" from rfl]
  rw [strReplace_consume _ _ _ hq]
  rw [strReplace_skip "$TMPDIR" _ p "$TMPDIR" hp hhead]

/-- Witness: the no-remnant branch of `redact_longest_first` at the claimed
table and text, split as prefix `/tmp`, extension `/sub`, tail `/file`. -/
theorem redact_longest_first_witness :
    redact (sortTempDirs ["/tmp", "/tmp" ++ "/sub"]) (("/tmp" ++ "/sub") ++ "/file")
      = "$TMPDIR" ++ strReplace (strReplace "/file" ("/tmp" ++ "/sub") "$TMPDIR") "/tmp" "$TMPDIR" :=
  redact_longest_first.2.2.2.1 "/tmp" "/sub" "/file" (by decide) (by decide)
    (by
      intro c hc
      simp only [List.head?] at hc
      cases hc
      decide)

/-- C2: rendering a `Text` block with `has_output` false strips exactly the
leading newline characters and no other characters (the remainder is a suffix
preceded only by newlines, and its first character is not a newline); an empty
remainder renders nothing and leaves the flag unchanged; a nonempty remainder
goes through the markdown renderer and sets the flag; with `has_output` true
nothing is stripped. -/
theorem text_block_strip (ext : ExtFns) (s : String) :
    (∃ k, s.data = List.replicate k '\n' ++ (stripLeadingNewlines s).data) ∧
    (∀ c, (stripLeadingNewlines s).data.head? = some c → c ≠ '\n') ∧
    (stripLeadingNewlines s = "" → renderTextBlock ext false s = ("", false)) ∧
    (stripLeadingNewlines s ≠ "" →
      renderTextBlock ext false s = (ext.term_text (stripLeadingNewlines s), true)) ∧
    (s ≠ "" → renderTextBlock ext true s = (ext.term_text s, true)) ∧
    (s = "" → renderTextBlock ext true s = ("", true)) := by
  refine ⟨?_, ?_, ?_, ?_, ?_, ?_⟩
  · refine ⟨(s.data.takeWhile (· == '\n')).length, ?_⟩
    have h1 := List.takeWhile_append_dropWhile (· == '\n') s.data
    have h2 : s.data.takeWhile (· == '\n') =
        List.replicate (s.data.takeWhile (· == '\n')).length '\n' := by
      apply List.eq_replicate_of_mem
      intro b hb
      have := List.mem_takeWhile_imp hb
      simpa using this
    rw [stripLeadingNewlines]
    rw [← h2]
    exact h1.symm
  · intro c hc
    have := List.head?_dropWhile_not (· == '\n') s.data
    rw [stripLeadingNewlines] at hc
    simp only at hc
    rw [hc] at this
    simpa using this
  · intro h
    simp [renderTextBlock, h]
  · intro h
    simp [renderTextBlock, h]
  · intro h
    simp [renderTextBlock, h]
  · intro h
    simp [renderTextBlock, h]

/-- Witness: `text_block_strip` at a text with two leading newlines and the
identity markdown renderer. -/
theorem text_block_strip_witness :
    renderTextBlock extId false "\n\nhi" =
      (extId.term_text (stripLeadingNewlines "\n\nhi"), true) :=
  (text_block_strip extId "\n\nhi").2.2.2.1 (by decide)

/-- C6 counterexample: a `ToolUse` block with tool name `Bash` renders as the
plain line with no dimming applied — the rendered text differs from the
dimmed form of the same line, refuting the claim that the fallback line is
dimmed. -/
theorem tooluse_fallback_not_dimmed :
    renderBlock extId false (ContentBlock.toolUse "Bash" ⟨none⟩)
      = ("> Bash\n", true) ∧
    ("> Bash\n" : String) ≠ dim "> Bash" ++ "\n" := by
  exact ⟨by decide, by decide⟩

/-- C6 (amended): a `ToolUse` block renders a single line — dimmed
`> name path` (with `?` when the input has no file path) when the name is
`Read`, `Write` or `Edit`, and an undimmed `> name` otherwise — and the
`has_output` flag is set in every case. -/
theorem tooluse_render (ext : ExtFns) (b : Bool) (name : String)
    (input : ToolInput) :
    renderBlock ext b (ContentBlock.toolUse name input)
      = (renderToolUse name input, true) ∧
    (name = "Read" ∨ name = "Write" ∨ name = "Edit" →
      renderToolUse name input
        = dim ("> " ++ name ++ " " ++ input.file_path.getD "?") ++ "\n") ∧
    (¬(name = "Read" ∨ name = "Write" ∨ name = "Edit") →
      renderToolUse name input = "> " ++ name ++ "\n") := by
  refine ⟨rfl, ?_, ?_⟩
  · intro h
    simp [renderToolUse, h]
  · intro h
    simp [renderToolUse, h]

/-- Witness: `tooluse_render` at a `Read` block carrying a file path. -/
theorem tooluse_render_witness :
    renderToolUse "Read" ⟨some "/tmp/x"⟩
      = dim ("> " ++ "Read" ++ " " ++ (some "/tmp/x").getD "?") ++ "\n" :=
  (tooluse_render extId false "Read" ⟨some "/tmp/x"⟩).2.1 (Or.inl rfl)

/-- A result line with an unrecognized subtype, as a JSON value. -/
def unknownSubtypeEvent : Json :=
  Json.obj [("type", Json.str "result"), ("subtype", Json.str "error_during_execution")]

/-- A generic malformed line (an unknown top-level event tag), as a JSON
value. -/
def malformedEvent : Json :=
  Json.obj [("type", Json.str "weird")]

/-- C1 counterexample: a result line with an unknown subtype does fail
deserialization, but the error is not surfaced to the caller of the parse
step: `RawClaudeEvent::fmt` takes the same silent skip path as a generic
malformed line, writing nothing and leaving the state unchanged, with no
error in the codomain of the render at all. -/
theorem unknown_subtype_skipped :
    ClaudeEvent.deserialize unknownSubtypeEvent = none ∧
    rawEventRender extId [] false unknownSubtypeEvent = ("", false) ∧
    ClaudeEvent.deserialize malformedEvent = none ∧
    rawEventRender extId [] false malformedEvent = ("", false) := by
  exact ⟨by decide, by decide, by decide, by decide⟩

/-- C1 (amended): any JSON object whose `type` is `result` and whose
`subtype` is a string other than `success` fails deserialization (the Result
family is closed), and the parse error is handled exactly like a generic
malformed line: the render step writes nothing, leaves the `has_output` flag
unchanged, and propagates no error. -/
theorem unknown_subtype_amended (fields : List (String × Json)) (sub : String)
    (ext : ExtFns) (dirs : List String) (b : Bool)
    (htype : jGet fields "type" = some (Json.str "result"))
    (hsub : jGet fields "subtype" = some (Json.str sub))
    (hne : sub ≠ "success") :
    ClaudeEvent.deserialize (Json.obj fields) = none ∧
    rawEventRender ext dirs b (Json.obj fields) = ("", b) := by
  have hdeser : ClaudeEvent.deserialize (Json.obj fields) = none := by
    rw [ClaudeEvent.deserialize, htype]
    simp only [ClaudeResult.deserialize, hsub]
    split
    · next heq =>
      simp only [Option.some.injEq, Json.str.injEq] at heq
      exact absurd heq hne
    · simp
  refine ⟨hdeser, ?_⟩
  rw [rawEventRender, hdeser]

/-- Witness: `unknown_subtype_amended` at the concrete unknown-subtype line. -/
theorem unknown_subtype_amended_witness :
    ClaudeEvent.deserialize
        (Json.obj [("type", Json.str "result"),
          ("subtype", Json.str "error_during_execution")]) = none ∧
    rawEventRender extId [] false
        (Json.obj [("type", Json.str "result"),
          ("subtype", Json.str "error_during_execution")]) = ("", false) :=
  unknown_subtype_amended
    [("type", Json.str "result"), ("subtype", Json.str "error_during_execution")]
    "error_during_execution" extId [] false rfl rfl (by decide)

/-- Rendering one content block either leaves the flag unchanged or sets it. -/
theorem renderBlock_flag_mono (ext : ExtFns) (b : Bool) (blk : ContentBlock) :
    (renderBlock ext b blk).2 = b ∨ (renderBlock ext b blk).2 = true := by
  cases blk with
  | text t =>
    rw [renderBlock, renderTextBlock]
    by_cases h : (if b then t else stripLeadingNewlines t) = ""
    · simp [h]
    · simp [h]
  | toolUse name input => exact Or.inr rfl
  | unknown => exact Or.inl rfl

/-- The content-block loop either leaves the flag unchanged or sets it. -/
theorem renderBlocks_flag_mono (ext : ExtFns) (b : Bool)
    (blocks : List ContentBlock) :
    (renderBlocks ext b blocks).2 = b ∨ (renderBlocks ext b blocks).2 = true := by
  induction blocks generalizing b with
  | nil => exact Or.inl rfl
  | cons blk rest ih =>
    rw [renderBlocks]
    rcases renderBlock_flag_mono ext b blk with h1 | h1 <;>
      rcases ih (renderBlock ext b blk).2 with h2 | h2 <;>
      simp only [h1, h2] at * <;> simp [h1, h2]

/-- Rendering one parsed event either leaves the flag unchanged or sets it. -/
theorem renderEvent_flag_mono (ext : ExtFns) (b : Bool) (ev : ClaudeEvent) :
    (renderEvent ext b ev).2 = b ∨ (renderEvent ext b ev).2 = true := by
  cases ev with
  | assistant message => exact renderBlocks_flag_mono ext b message.content
  | result r => cases r with | success s => exact Or.inr rfl

/-- C9: across one writer, every rendering operation either leaves the
`has_output` flag unchanged or sets it to true, and over any event sequence
the flag never returns to false once it is true. -/
theorem has_output_monotone :
    (∀ ext dirs b j,
      (rawEventRender ext dirs b j).2 = b ∨ (rawEventRender ext dirs b j).2 = true) ∧
    (∀ ext dirs js b, b = true → (renderRun ext dirs b js).2 = true) := by
  have step : ∀ ext dirs b j,
      (rawEventRender ext dirs b j).2 = b ∨ (rawEventRender ext dirs b j).2 = true := by
    intro ext dirs b j
    rw [rawEventRender]
    cases h : ClaudeEvent.deserialize j with
    | none => exact Or.inl rfl
    | some ev => exact renderEvent_flag_mono ext b ev
  refine ⟨step, ?_⟩
  intro ext dirs js
  induction js with
  | nil => intro b hb; exact hb
  | cons j rest ih =>
    intro b hb
    rw [renderRun]
    apply ih
    rcases step ext dirs b j with h | h
    · rw [h, hb]
    · exact h

/-- Witness: the sequence half of `has_output_monotone` on an empty run
starting with the flag already set. -/
theorem has_output_monotone_witness :
    (renderRun extId [] true []).2 = true :=
  has_output_monotone.2 extId [] [] true rfl

/-- C3: the event sink starts open exactly when the log directory and the
fresh per-run file both succeed; while open, a successful `log_event` appends
the newline-terminated line and keeps the handle; a write failure clears the
handle and surfaces nothing (the codomain of the embedding has no error
channel, matching the unit-returning source); with the handle cleared every
call is a no-op, and it stays a no-op for any remaining sequence of calls. -/
theorem event_sink_state_machine :
    (∀ c, MergeLogger.new false c = ⟨none, none⟩) ∧
    (MergeLogger.new true true).event_file = some () ∧
    (MergeLogger.new true false).event_file = none ∧
    (∀ p line, MergeLogger.log_event ⟨some (), p⟩ line IOOutcome.ok
      = (⟨some (), p⟩, some (line ++ "\n"))) ∧
    (∀ p line, MergeLogger.log_event ⟨some (), p⟩ line IOOutcome.err
      = (⟨none, p⟩, none)) ∧
    (∀ p line w, MergeLogger.log_event ⟨none, p⟩ line w = (⟨none, p⟩, none)) ∧
    (∀ p calls, runEvents ⟨none, p⟩ calls = (⟨none, p⟩, [])) := by
  refine ⟨fun c => rfl, rfl, rfl, fun p line => rfl, fun p line => rfl,
    ?_, ?_⟩
  · intro p line w
    cases w <;> rfl
  · intro p calls
    induction calls with
    | nil => rfl
    | cons c rest ih =>
      obtain ⟨line, w⟩ := c
      rw [runEvents]
      cases w <;> simpa [MergeLogger.log_event] using ih

/-- Witness: the open-sink append branch of `event_sink_state_machine` at a
concrete line. -/
theorem event_sink_state_machine_witness :
    MergeLogger.log_event ⟨some (), some ()⟩ "line" IOOutcome.ok
      = (⟨some (), some ()⟩, some ("line" ++ "\n")) :=
  event_sink_state_machine.2.2.2.1 (some ()) "line"

/-- C8: `log_summary` never changes the logger state (no handle to
invalidate); with no summary path it writes nothing; with a summary path a
successful open and write appends exactly the newline-terminated line; a
failed open or a failed write is swallowed with nothing written; and because
the state is unchanged, a call right after a failed open retries the open and
succeeds in writing. -/
theorem summary_sink_stateless :
    (∀ lg line o w, (MergeLogger.log_summary lg line o w).1 = lg) ∧
    (∀ e line o w, MergeLogger.log_summary ⟨e, none⟩ line o w = (⟨e, none⟩, none)) ∧
    (∀ e line, MergeLogger.log_summary ⟨e, some ()⟩ line IOOutcome.ok IOOutcome.ok
      = (⟨e, some ()⟩, some (line ++ "\n"))) ∧
    (∀ e line w, MergeLogger.log_summary ⟨e, some ()⟩ line IOOutcome.err w
      = (⟨e, some ()⟩, none)) ∧
    (∀ e line, MergeLogger.log_summary ⟨e, some ()⟩ line IOOutcome.ok IOOutcome.err
      = (⟨e, some ()⟩, none)) ∧
    (∀ e l1 l2 w,
      (MergeLogger.log_summary
        (MergeLogger.log_summary ⟨e, some ()⟩ l1 IOOutcome.err w).1
        l2 IOOutcome.ok IOOutcome.ok).2 = some (l2 ++ "\n")) := by
  refine ⟨?_, fun e line o w => rfl, fun e line => rfl, fun e line w => rfl,
    fun e line => rfl, fun e l1 l2 w => rfl⟩
  intro lg line o w
  obtain ⟨e, p⟩ := lg
  cases p with
  | none => rfl
  | some u => cases o <;> cases w <;> rfl

/-- Witness: the successful append branch of `summary_sink_stateless` at a
concrete line. -/
theorem summary_sink_stateless_witness :
    MergeLogger.log_summary ⟨none, some ()⟩ "x" IOOutcome.ok IOOutcome.ok
      = (⟨none, some ()⟩, some ("x" ++ "\n")) :=
  summary_sink_stateless.2.2.1 none "x"

/-- A concrete per-model usage record. -/
def usageA : ClaudeModelUsage := ⟨1, 2, 3, 4, 0, ⟨1, 100⟩, 100, 200⟩

/-- A concrete success payload carrying the given model-usage entries in the
given iteration order. -/
def successWithOrder (mu : List (String × ClaudeModelUsage)) : ClaudeSuccess :=
  ⟨false, 100, 90, 1, "ok", ⟨1, 100⟩, ⟨1, 0, 0, 1⟩, mu⟩

/-- C5 counterexample: the model-usage map is a Rust `HashMap`, so its
iteration order is not determined by the payload; two iteration orders of the
same two-entry map (a permutation, hence the same map contents) render to
different strings, refuting determinism of the output for a fixed payload. -/
theorem success_render_order_dependent :
    [("modelA", usageA), ("modelB", usageA)].Perm
      [("modelB", usageA), ("modelA", usageA)] ∧
    renderSuccess extId (successWithOrder [("modelA", usageA), ("modelB", usageA)])
      ≠ renderSuccess extId (successWithOrder [("modelB", usageA), ("modelA", usageA)]) := by
  constructor
  · exact List.Perm.swap _ _ _
  · decide

/-- C5 (amended): for a fixed payload and a fixed iteration order of the
model-usage map, rendering a success result is a pure function producing the
bold header and, when the map is nonempty, exactly one dimmed line per model
in that iteration order; the hash map itself does not guarantee a sorted or
insertion order. -/
theorem success_render_per_model_lines (ext : ExtFns) (s : ClaudeSuccess) :
    (s.model_usage = [] → renderSuccess ext s = greenBold (successHeader ext s)) ∧
    (s.model_usage ≠ [] →
      renderSuccess ext s = greenBold (successHeader ext s) ++
        (dim "\nUsage by model:" ++ String.join (s.model_usage.map modelUsageLine)) ∧
      (s.model_usage.map modelUsageLine).length = s.model_usage.length ∧
      ∀ l ∈ s.model_usage.map modelUsageLine, ∃ e ∈ s.model_usage,
        l = dim ("\n    " ++ e.1 ++ ": " ++ renderModelUsage e.2)) := by
  constructor
  · intro h
    simp [renderSuccess, h]
  · intro h
    refine ⟨?_, List.length_map _ _, ?_⟩
    · simp [renderSuccess, List.isEmpty_iff, h]
    · intro l hl
      obtain ⟨e, he, rfl⟩ := List.mem_map.mp hl
      exact ⟨e, he, rfl⟩

/-- Witness: `success_render_per_model_lines` at a one-model payload. -/
theorem success_render_per_model_lines_witness :
    renderSuccess extId (successWithOrder [("m", usageA)])
      = greenBold (successHeader extId (successWithOrder [("m", usageA)])) ++
        (dim "\nUsage by model:" ++
          String.join ((successWithOrder [("m", usageA)]).model_usage.map modelUsageLine)) :=
  ((success_render_per_model_lines extId (successWithOrder [("m", usageA)])).2
    (by decide)).1

/-- A success payload with zero duration and zero cost. -/
def zeroSuccess : ClaudeSuccess := ⟨false, 0, 0, 0, "", ⟨0, 1⟩, ⟨0, 0, 0, 0⟩, []⟩

/-- C10 counterexample: at zero duration with zero total cost the annualized
rate is `0.0 / 0.0 = NaN`, not infinity; the claim that a zero duration
yields infinity fails at this payload (the value still formats, as `$NaNk`). -/
theorem zero_duration_zero_cost_nan :
    zeroSuccess.durationMs = 0 ∧
    annualizedRate zeroSuccess = F64.nan ∧
    F64.nan ≠ F64.inf ∧
    Dollars.display (annualizedRate zeroSuccess) = "$NaNk" := by
  exact ⟨rfl, by decide, by decide, by decide⟩

/-- C10 (amended): rendering a success payload with zero duration is total:
the rate divides in IEEE arithmetic, giving infinity for positive cost, NaN
for zero cost and negative infinity for negative cost; in every case the
value still passes through the currency formatter (`$infk`, `$NaNk`, `$-inf`)
and the rendered summary is the defined string built from it. -/
theorem zero_duration_total (s : ClaudeSuccess) (h : s.durationMs = 0) :
    (0 < s.total_cost_usd.num → annualizedRate s = F64.inf ∧
      Dollars.display (annualizedRate s) = "$infk") ∧
    (s.total_cost_usd.num = 0 → annualizedRate s = F64.nan ∧
      Dollars.display (annualizedRate s) = "$NaNk") ∧
    (s.total_cost_usd.num < 0 → annualizedRate s = F64.negInf ∧
      Dollars.display (annualizedRate s) = "$-inf") ∧
    (∀ ext, successHeader ext s
      = "Finished in " ++ HumanTime.display ext 0 ++ " (" ++
        HumanTime.display ext s.apiDurationMs ++ " API time). Total cost: " ++
        Dollars.display (F64.finite s.total_cost_usd) ++ " (Salary: " ++
        Dollars.display (annualizedRate s) ++ "/yr)" ∧
      renderSuccess ext s = greenBold (successHeader ext s) ++
        (if s.model_usage.isEmpty then ""
         else dim "\nUsage by model:" ++
           String.join (s.model_usage.map modelUsageLine))) := by
  refine ⟨?_, ?_, ?_, ?_⟩
  · intro hc
    have hrate : annualizedRate s = F64.inf := by
      rw [annualizedRate, h]
      simp [F64.div, F64.mul, hc.ne', hc, Q.ofNat]
    refine ⟨hrate, ?_⟩
    rw [hrate]
    decide
  · intro hc
    have hrate : annualizedRate s = F64.nan := by
      rw [annualizedRate, h]
      simp [F64.div, F64.mul, hc]
    refine ⟨hrate, ?_⟩
    rw [hrate]
    decide
  · intro hc
    have hrate : annualizedRate s = F64.negInf := by
      rw [annualizedRate, h]
      simp [F64.div, F64.mul, hc.ne, hc, asymm hc, Q.ofNat]
    refine ⟨hrate, ?_⟩
    rw [hrate]
    decide
  · intro ext
    constructor
    · rw [successHeader, h]
    · rfl

/-- Witness: `zero_duration_total` at the zero-duration, zero-cost payload. -/
theorem zero_duration_total_witness :
    annualizedRate zeroSuccess = F64.nan ∧
    Dollars.display (annualizedRate zeroSuccess) = "$NaNk" :=
  (zero_duration_total zeroSuccess rfl).2.1 rfl

end ClaudeMergetool
